import Mathlib

/-!
Verification development for `NameGenderMapper.py`, a streaming script that
annotates tabular records with an inferred gender, a confidence score and a
source tag, using a frequency mapping built from a reference dataset plus an
optional dictionary-based fallback classifier.

The Python code is shallowly embedded below.  Counters (`collections.Counter`)
are modelled as association lists in insertion order, since `Counter.most_common`
breaks ties by first-insertion order (Python dicts preserve insertion order and
`sorted` with `reverse=True` is stable).  Python floats are modelled as `ℚ`:
all arithmetic performed by the script (`top/total`, `* 0.7`) is exact at the
magnitudes involved, and the `"{:.3f}"` output formatting is modelled by
rounding to thousandths.
-/

/-- Characters treated as whitespace, matching `str.split` / `\s` for the
ASCII range (space, tab, LF, CR, FF, VT). -/
def isSpaceChar (c : Char) : Bool :=
  c.toNat = 32 || c.toNat = 9 || c.toNat = 10 || c.toNat = 13 ||
  c.toNat = 12 || c.toNat = 11

/-- Characters kept by the regex `[^A-Za-zÀ-ÖØ-öø-ÿ'\-\s]` substitution in
`NameGenderMapper.py` line 32: ASCII letters, the Latin-1 letter ranges
U+00C0..U+00D6, U+00D8..U+00F6, U+00F8..U+00FF, apostrophe (39), hyphen (45)
and whitespace. -/
def validChar (c : Char) : Bool :=
  (65 ≤ c.toNat && c.toNat ≤ 90) || (97 ≤ c.toNat && c.toNat ≤ 122) ||
  (192 ≤ c.toNat && c.toNat ≤ 214) || (216 ≤ c.toNat && c.toNat ≤ 246) ||
  (248 ≤ c.toNat && c.toNat ≤ 255) || c.toNat = 39 || c.toNat = 45 ||
  isSpaceChar c

/-- Python `str.lower` restricted to the character set kept by `validChar`:
ASCII `A-Z` and Latin-1 uppercase `À-Þ` (except `×`) map down by 32. -/
def lowerChar (c : Char) : Char :=
  if (65 ≤ c.toNat ∧ c.toNat ≤ 90) ∨
     (192 ≤ c.toNat ∧ c.toNat ≤ 222 ∧ c.toNat ≠ 215) then
    Char.ofNat (c.toNat + 32)
  else c

/-- Python `str.upper` on the same character set. -/
def upperChar (c : Char) : Char :=
  if (97 ≤ c.toNat ∧ c.toNat ≤ 122) ∨
     (224 ≤ c.toNat ∧ c.toNat ≤ 254 ∧ c.toNat ≠ 247) then
    Char.ofNat (c.toNat - 32)
  else c

/-- Python `str.strip` on a character list. -/
def trimL (l : List Char) : List Char :=
  ((l.dropWhile isSpaceChar).reverse.dropWhile isSpaceChar).reverse

/-- Python `str.split()` (no argument): split on whitespace runs, dropping
empty tokens. -/
def splitToks (l : List Char) : List (List Char) :=
  (l.foldr
    (fun c acc =>
      if isSpaceChar c then [] :: acc
      else
        match acc with
        | [] => [[c]]
        | t :: ts => (c :: t) :: ts)
    []).filter (fun t => decide (t ≠ []))

/-- `get_first_name` (`NameGenderMapper.py` lines 47-60): strip, remove
characters outside the allowed alphabet, split into tokens; an initial first
token defers to a longer second token, otherwise the first token is returned
lowercased. -/
def get_first_name (full_name : String) : String :=
  if full_name = ("") then ("")
  else
    let cleaned := (trimL full_name.toList).filter validChar
    match splitToks cleaned with
    | [] => ("")
    | t0 :: rest =>
      if t0.length = 1 then
        match rest with
        | t1 :: _ => if 1 < t1.length then String.mk (t1.map lowerChar) else ("")
        | [] => ("")
      else String.mk (t0.map lowerChar)

/-- `normalize_gender` (lines 40-45): trim + lowercase; a leading `m` gives
`M`, a leading `f` gives `F`, anything else `Unknown` (the Python
`s == 'm' or s.startswith('m')` test is equivalent to checking the first
character). -/
def normalize_gender (g : String) : String :=
  if g = ("") then ("Unknown")
  else
    match (trimL g.toList).map lowerChar with
    | [] => ("Unknown")
    | c :: _ => if c = 'm' then ("M") else if c = 'f' then ("F") else ("Unknown")

/-- `row[country_idx].strip().upper()` (line 117) / `row[1].strip().upper()`
(line 179). -/
def countryKey (s : String) : String :=
  String.mk ((trimL s.toList).map upperChar)

/-- `gg_guess` (lines 62-72).  The gender-guesser detector itself is external;
it is modelled as a function `det` from a name to one of the category strings
of the library (`male`, `mostly_male`, `female`, `mostly_female`, `andy`,
`unknown`), and `gga` models `GG_AVAILABLE`. -/
def gg_guess (gga : Bool) (det : String → String) (first : String) : String × ℚ :=
  if ¬ gga ∨ first = ("") then (("Unknown"), 0)
  else if det first = ("male") then (("M"), 1)
  else if det first = ("mostly_male") then (("M"), 17/20)
  else if det first = ("female") then (("F"), 1)
  else if det first = ("mostly_female") then (("F"), 17/20)
  else if det first = ("andy") then (("Unknown"), 1/2)
  else (("Unknown"), 0)

/-- A `collections.Counter` over gender labels, in insertion order. -/
abbrev Counter := List (String × ℕ)

/-- The global table `counts_global : first -> Counter` (line 80). -/
abbrev GTable := List (String × Counter)

/-- The table `counts_by_country : country -> first -> Counter` (line 81). -/
abbrev CTable := List (String × GTable)

/-- A value of `mapping` / `mapping_country`: `(gender, confidence, total_count)`. -/
abbrev CEntry := String × ℚ × ℕ

/-- `sum(ctr.values())`. -/
def totalOf (ctr : Counter) : ℕ := (ctr.map Prod.snd).sum

/-- `ctr[g] += 1` on a `Counter`: bump an existing key in place, append a new
key at the end (Python dicts preserve insertion order). -/
def bump (g : String) : Counter → Counter
  | [] => [(g, 1)]
  | (k, n) :: rest => if k = g then (k, n + 1) :: rest else (k, n) :: bump g rest

/-- Insertion step of a stable descending sort by count: an element is placed
before the first element whose count does not exceed it, so that among equal
counts the earlier-inserted element stays first. -/
def insertDesc (x : String × ℕ) : List (String × ℕ) → List (String × ℕ)
  | [] => [x]
  | y :: ys => if y.2 ≤ x.2 then x :: y :: ys else y :: insertDesc x ys

/-- `Counter.most_common()`: the items sorted by count descending; CPython
implements this with the stable `sorted(..., reverse=True)`, so ties keep
insertion order, which this stable insertion sort reproduces. -/
def most_common (ctr : Counter) : List (String × ℕ) := ctr.foldr insertDesc []

/-- Dictionary lookup on an association list (first matching key wins). -/
def lookupA {α β : Type} [DecidableEq α] (a : α) : List (α × β) → Option β
  | [] => none
  | (k, v) :: rest => if k = a then some v else lookupA a rest

/-- `counts_global[fname][gnorm] += 1` (line 115): a `defaultdict(Counter)`
update. -/
def addName (f g : String) : GTable → GTable
  | [] => [(f, bump g [])]
  | (k, c) :: rest =>
    if k = f then (k, bump g c) :: rest else (k, c) :: addName f g rest

/-- `counts_by_country[country][fname][gnorm] += 1` (line 119). -/
def addCountry (c f g : String) : CTable → CTable
  | [] => [(c, addName f g [])]
  | (k, d) :: rest =>
    if k = c then (k, addName f g d) :: rest else (k, d) :: addCountry c f g rest

/-- A reference row after column-role resolution: the name field, the gender
field, and the country field (`none` when no country column was detected). -/
structure RefRow where
  name : String
  gender : String
  country : Option String

/-- One iteration of the reference aggregation loop (lines 108-119): skip the
row when the extracted name token is empty; otherwise count the normalized
gender globally, and also under the stripped uppercased country when a country
column exists and the field is non-empty. -/
def aggStep (s : GTable × CTable) (r : RefRow) : GTable × CTable :=
  let fname := get_first_name r.name
  if fname = ("") then s
  else
    let gnorm := normalize_gender r.gender
    let g2 := addName fname gnorm s.1
    let c2 :=
      match r.country with
      | none => s.2
      | some craw =>
        let c := countryKey craw
        if c = ("") then s.2 else addCountry c fname gnorm s.2
    (g2, c2)

/-- The reference aggregation loop over all rows. -/
def aggregate (rows : List RefRow) : GTable × CTable :=
  rows.foldl aggStep ([], [])

/-- `CONF_THRESHOLD = 0.65` (line 26). -/
def CONF_THRESHOLD : ℚ := 13/20

/-- `MIN_COUNT_FOR_CONFIDENCE = 5` (line 27). -/
def MIN_COUNT_FOR_CONFIDENCE : ℕ := 5

/-- The body of the mapping-construction loop (lines 125-134 and 139-145):
skip a counter with total 0; otherwise take `most_common(1)[0]`, compute
`top_count / total`, and multiply by `0.7` when the total is below
`MIN_COUNT_FOR_CONFIDENCE` and the confidence is below `1.0`. -/
def mkEntry (ctr : Counter) : Option CEntry :=
  if totalOf ctr = 0 then none
  else
    match most_common ctr with
    | [] => none
    | (tg, tc) :: _ =>
      let conf : ℚ := (tc : ℚ) / (totalOf ctr : ℚ)
      some (tg,
        (if totalOf ctr < MIN_COUNT_FOR_CONFIDENCE ∧ conf < 1
         then conf * (7/10) else conf),
        totalOf ctr)

/-- `mapping` (lines 122, 125-134): `fname -> (gender, confidence, total)`. -/
def buildMapping (counts : GTable) : List (String × CEntry) :=
  counts.filterMap (fun p => (mkEntry p.2).map (fun e => (p.1, e)))

/-- `mapping_country` (lines 123, 136-145): `(country, fname) -> entry`,
iterating countries in insertion order and names within each country. -/
def buildMappingCountry (bc : CTable) : List ((String × String) × CEntry) :=
  (bc.map (fun p => (buildMapping p.2).map (fun q => ((p.1, q.1), q.2)))).flatten

/-- Lines 185-200 of the decision loop: prefer a country-scoped entry when its
confidence reaches the threshold, else a global entry when its confidence
reaches the threshold; otherwise the defaults stand (the `cand_g, cand_conf`
assignments on lines 193 and 200 are dead: line 215 recomputes `cand_conf`
from the global mapping before any use, and `cand_g` is never read). -/
def decideMapping (m : List (String × CEntry)) (mc : List ((String × String) × CEntry))
    (ck fname : String) : String × ℚ × String :=
  match lookupA (ck, fname) mc with
  | some e =>
    if CONF_THRESHOLD ≤ e.2.1 then (e.1, e.2.1, ("country-mapped"))
    else (("Unknown"), 0, ("unknown"))
  | none =>
    match lookupA fname m with
    | some e =>
      if CONF_THRESHOLD ≤ e.2.1 then (e.1, e.2.1, ("mapped"))
      else (("Unknown"), 0, ("unknown"))
    | none => (("Unknown"), 0, ("unknown"))

/-- Lines 202-225: when still undecided and the token is non-empty, consult
gender-guesser if the global mapping is missing or below threshold; adopt its
result when `gg_conf >= 0.85` or `gg_conf > cand_conf` (with `cand_conf` re-read
from the *global* mapping, line 215), else fall back to the global entry when
it beats `gg_conf`; when gender-guesser is not consulted, accept the global
entry whatever its confidence (lines 222-225). -/
def decideGG (m : List (String × CEntry)) (gga : Bool) (det : String → String)
    (fname : String) (st : String × ℚ × String) : String × ℚ × String :=
  if st.1 = ("Unknown") ∧ fname ≠ ("") then
    let use_gg : Bool :=
      match lookupA fname m with
      | none => true
      | some e => decide (e.2.1 < CONF_THRESHOLD)
    if use_gg && gga then
      let gp := gg_guess gga det fname
      let cand_conf : ℚ :=
        match lookupA fname m with
        | some e => e.2.1
        | none => 0
      if 17/20 ≤ gp.2 ∨ cand_conf < gp.2 then (gp.1, gp.2, ("gender-guesser"))
      else
        match lookupA fname m with
        | some e => if gp.2 < cand_conf then (e.1, cand_conf, ("mapped")) else st
        | none => st
    else
      match lookupA fname m with
      | some e => (e.1, e.2.1, ("mapped"))
      | none => st
  else st

/-- Lines 227-229: final fallback to the global mapping's top choice. -/
def decideFinal (m : List (String × CEntry)) (fname : String)
    (st : String × ℚ × String) : String × ℚ × String :=
  if st.1 = ("Unknown") ∧ fname ≠ ("") then
    match lookupA fname m with
    | some e => (e.1, e.2.1, ("mapped"))
    | none => st
  else st

/-- The full decision cascade for one input row (lines 178-229): `row[0]` is
the name, `row[1]` (when present) the country. -/
def decideRow (m : List (String × CEntry)) (mc : List ((String × String) × CEntry))
    (gga : Bool) (det : String → String) (row : List String) : String × ℚ × String :=
  let fname := get_first_name (row.headD (""))
  let ck := countryKey (row.getD 1 (""))
  let st1 :=
    if fname ≠ ("") then decideMapping m mc ck fname
    else (("Unknown"), 0, ("unknown"))
  decideFinal m fname (decideGG m gga det fname st1)

/-- `"{:.3f}".format(conf)` for the non-negative confidences produced by the
script, modelled by rounding the rational to thousandths. -/
def fmt3 (q : ℚ) : String :=
  toString ((round (q * 1000)).toNat / 1000) ++ (".") ++
  (toString (1000 + (round (q * 1000)).toNat % 1000)).drop 1

/-- The output-writing loop (lines 171-232): skip empty rows and repeated
header rows, and append the three decision columns to every other row. -/
def processRows (m : List (String × CEntry)) (mc : List ((String × String) × CEntry))
    (gga : Bool) (det : String → String) (rows : List (List String)) :
    List (List String) :=
  rows.filterMap (fun row =>
    if row = [] then none
    else if String.mk ((trimL (row.headD ("")).toList).map lowerChar) = ("name") then
      none
    else
      some (row ++ [(decideRow m mc gga det row).1,
                    fmt3 (decideRow m mc gga det row).2.1,
                    (decideRow m mc gga det row).2.2]))

/-- `top_count` of a counter: the count of `most_common(1)[0]`. -/
def top_count (ctr : Counter) : ℕ := ((most_common ctr).headD (("Unknown"), 0)).2

/-- `second_count` (line 253): `most_common()[1][1]` when a second label
exists, else 0. -/
def second_count (ctr : Counter) : ℕ :=
  match most_common ctr with
  | _ :: y :: _ => y.2
  | _ => 0

/-- The body of the audit loop (lines 247-257) for a single
`(fname, Counter)` item: skip a zero total, otherwise compute `most_common()`,
the top and second counts and the unpenalized confidence, and emit
`(first_name, top_gender, top_count, second_count, total_count, confidence)`
when `total < 50`, or `conf < 0.7`, or at least two labels were observed and
the gap between the top two counts is below 3. -/
def auditItem (p : String × Counter) : Option (String × String × ℕ × ℕ × ℕ × ℚ) :=
  if totalOf p.2 = 0 then none
  else
    match most_common p.2 with
    | [] => none
    | (tg, tc) :: rest =>
      if totalOf p.2 < 50 ∨ (tc : ℚ) / (totalOf p.2 : ℚ) < 7/10 ∨
         (rest ≠ [] ∧ (tc : ℤ) - (match rest with | [] => 0 | y :: _ => y.2) < 3) then
        some (p.1, tg, tc, (match rest with | [] => 0 | y :: _ => y.2),
              totalOf p.2, (tc : ℚ) / (totalOf p.2 : ℚ))
      else none

/-- The audit loop (lines 244-257) over the whole global count table. -/
def auditRows (counts : GTable) : List (String × String × ℕ × ℕ × ℕ × ℚ) :=
  counts.filterMap auditItem

/-- The total observed count recorded for a name in a global table (0 when
the name is absent). -/
def gTotal (t : GTable) (f : String) : ℕ :=
  totalOf ((lookupA f t).getD [])

/-- The total observed count recorded for a name under a country (0 when
absent). -/
def cTotal (bc : CTable) (c f : String) : ℕ :=
  gTotal ((lookupA c bc).getD []) f

/-- The reference rows of the end-to-end scenario of claim C1. -/
def c1rows : List RefRow :=
  [⟨("Alex"), ("M"), none⟩, ⟨("Alex"), ("F"), none⟩, ⟨("Alex"), ("F"), none⟩]

/-- Reference rows realizing a country-scoped entry `(Unknown, 0.70, 10)` for
`("US", "unai")` together with a global entry `(M, 0.90, 70)` for `"unai"`. -/
def c2rows : List RefRow :=
  List.replicate 7 ⟨("Unai"), ("x"), some ("US")⟩ ++
  List.replicate 3 ⟨("Unai"), ("M"), some ("US")⟩ ++
  List.replicate 60 ⟨("Unai"), ("M"), none⟩

/-- Reference rows realizing a country-scoped entry `(F, 0.60, 5)` for
`("US", "mika")` together with a global entry `(M, 0.55, 20)` for `"mika"`. -/
def c3rows : List RefRow :=
  List.replicate 3 ⟨("Mika"), ("F"), some ("US")⟩ ++
  List.replicate 2 ⟨("Mika"), ("M"), some ("US")⟩ ++
  List.replicate 9 ⟨("Mika"), ("M"), none⟩ ++
  List.replicate 6 ⟨("Mika"), ("F"), none⟩

/-- Reference rows producing a tied counter `{F: 1, M: 1}` for `"alex"` with
`F` observed first. -/
def c4rows : List RefRow :=
  [⟨("Alex"), ("F"), none⟩, ⟨("Alex"), ("M"), none⟩]

/-- Reference rows producing the counter `{M: 1, F: 1}` for `"pat"`. -/
def c7rows : List RefRow :=
  [⟨("Pat"), ("M"), none⟩, ⟨("Pat"), ("F"), none⟩]

/-- A detector that classifies every name as `andy` (androgynous). -/
def detAndy : String → String := fun _ => ("andy")

/-- A detector that knows no name. -/
def detNone : String → String := fun _ => ("unknown")

/-! ## Lemmas about the stable descending sort and `most_common` -/

theorem length_insertDesc (x : String × ℕ) (l : List (String × ℕ)) :
    (insertDesc x l).length = l.length + 1 := by
  induction l with
  | nil => rfl
  | cons y ys ih =>
    simp only [insertDesc]
    split
    · simp
    · simp [ih]

theorem length_most_common (ctr : Counter) :
    (most_common ctr).length = ctr.length := by
  induction ctr with
  | nil => rfl
  | cons x xs ih =>
    show (insertDesc x (most_common xs)).length = xs.length + 1
    rw [length_insertDesc, ih]

theorem most_common_eq_nil_iff (ctr : Counter) : most_common ctr = [] ↔ ctr = [] := by
  constructor
  · intro h
    have := length_most_common ctr
    rw [h] at this
    exact List.length_eq_zero.mp this.symm
  · intro h
    subst h
    rfl

theorem head?_insertDesc (x : String × ℕ) (l : List (String × ℕ)) :
    (insertDesc x l).head? =
      some (match l.head? with
            | none => x
            | some y => if y.2 ≤ x.2 then x else y) := by
  cases l with
  | nil => rfl
  | cons y ys =>
    simp only [insertDesc, List.head?_cons]
    split
    · simp
    · simp

/-- The head of `most_common` is the first-inserted entry attaining the
maximal count: its count dominates every count in the counter, and every
entry inserted before it has a strictly smaller count. -/
theorem most_common_head_spec (ctr : Counter) (p : String × ℕ)
    (h : (most_common ctr).head? = some p) :
    (∀ q ∈ ctr, q.2 ≤ p.2) ∧
    ∃ l1 l2, ctr = l1 ++ p :: l2 ∧ ∀ q ∈ l1, q.2 < p.2 := by
  induction ctr generalizing p with
  | nil => simp [most_common] at h
  | cons x xs ih =>
    rw [show most_common (x :: xs) = insertDesc x (most_common xs) from rfl,
        head?_insertDesc] at h
    rcases hx : (most_common xs).head? with _ | y
    · rw [hx] at h
      have hp : p = x := by
        have := Option.some.inj h
        simp at this
        exact this.symm
      subst hp
      have hxs : xs = [] := by
        rcases hmcx : most_common xs with _ | ⟨z, zs⟩
        · exact (most_common_eq_nil_iff xs).mp hmcx
        · rw [hmcx] at hx
          simp at hx
      subst hxs
      refine ⟨?_, [], [], by simp, by simp⟩
      intro q hq
      simp at hq
      subst hq
      exact le_refl _
    · rw [hx] at h
      obtain ⟨hmax, l1, l2, hsplit, hlt⟩ := ih y hx
      have h2 : (if y.2 ≤ x.2 then x else y) = p := by simpa using h
      by_cases hyx : y.2 ≤ x.2
      · rw [if_pos hyx] at h2
        have hp : p = x := h2.symm
        subst hp
        constructor
        · intro q hq
          rcases List.mem_cons.mp hq with rfl | hq2
          · exact le_refl _
          · exact (hmax q hq2).trans hyx
        · exact ⟨[], xs, by simp, by simp⟩
      · rw [if_neg hyx] at h2
        have hp : p = y := h2.symm
        subst hp
        have hxlt : x.2 < p.2 := not_le.mp hyx
        constructor
        · intro q hq
          rcases List.mem_cons.mp hq with rfl | hq2
          · exact le_of_lt hxlt
          · exact hmax q hq2
        · refine ⟨x :: l1, l2, by rw [hsplit]; simp, ?_⟩
          intro q hq
          rcases List.mem_cons.mp hq with rfl | hq2
          · exact hxlt
          · exact hlt q hq2

/-! ## Lemmas about `mkEntry` -/

theorem mkEntry_inv {ctr : Counter} {e : CEntry} (h : mkEntry ctr = some e) :
    ∃ tc, 0 < totalOf ctr ∧ (most_common ctr).head? = some (e.1, tc) ∧
      e.2.2 = totalOf ctr ∧
      (e.2.1 = (tc : ℚ) / (totalOf ctr : ℚ) ∨
       e.2.1 = (tc : ℚ) / (totalOf ctr : ℚ) * (7/10)) := by
  unfold mkEntry at h
  split at h
  · exact absurd h (by simp)
  · rename_i htot
    split at h
    · exact absurd h (by simp)
    · rename_i tg tc tail hmc
      have he : e = (tg,
          (if totalOf ctr < MIN_COUNT_FOR_CONFIDENCE ∧ (tc : ℚ) / (totalOf ctr : ℚ) < 1
           then (tc : ℚ) / (totalOf ctr : ℚ) * (7/10)
           else (tc : ℚ) / (totalOf ctr : ℚ)),
          totalOf ctr) := (Option.some.inj h).symm
      refine ⟨tc, Nat.pos_of_ne_zero htot, ?_, ?_, ?_⟩
      · simp [hmc, he]
      · rw [he]
      · rw [he]
        split
        · exact Or.inr rfl
        · exact Or.inl rfl

theorem mkEntry_isSome {ctr : Counter} (h : 0 < totalOf ctr) :
    (mkEntry ctr).isSome := by
  unfold mkEntry
  rw [if_neg (Nat.pos_iff_ne_zero.mp h)]
  rcases hmc : most_common ctr with _ | ⟨⟨tg, tc⟩, tail⟩
  · exfalso
    have hnil : ctr = [] := (most_common_eq_nil_iff ctr).mp hmc
    rw [hnil] at h
    simp [totalOf] at h
  · simp

theorem mkEntry_total {ctr : Counter} {e : CEntry} (h : mkEntry ctr = some e) :
    e.2.2 = totalOf ctr := by
  obtain ⟨tc, _, _, ht, _⟩ := mkEntry_inv h
  exact ht

/-- Any confidence produced by the mapping-construction step lies in `[0, 1]`. -/
theorem mkEntry_conf_bounds {ctr : Counter} {e : CEntry} (h : mkEntry ctr = some e) :
    0 ≤ e.2.1 ∧ e.2.1 ≤ 1 := by
  obtain ⟨tc, htot, hhead, _, hconf⟩ := mkEntry_inv h
  obtain ⟨_, l1, l2, hsplit, _⟩ := most_common_head_spec ctr (e.1, tc) hhead
  have htc_le : tc ≤ totalOf ctr := by
    have hmem : (e.1, tc) ∈ ctr := by
      rw [hsplit]
      exact List.mem_append_right _ (List.mem_cons_self _ _)
    have : tc ∈ ctr.map Prod.snd := List.mem_map.mpr ⟨(e.1, tc), hmem, rfl⟩
    exact List.single_le_sum (fun x _ => Nat.zero_le x) _ this
  have hpos : (0 : ℚ) < (totalOf ctr : ℚ) := by exact_mod_cast htot
  have h0 : (0 : ℚ) ≤ (tc : ℚ) / (totalOf ctr : ℚ) :=
    div_nonneg (by positivity) (le_of_lt hpos)
  have h1 : (tc : ℚ) / (totalOf ctr : ℚ) ≤ 1 :=
    (div_le_one hpos).mpr (by exact_mod_cast htc_le)
  rcases hconf with hc | hc
  · rw [hc]
    exact ⟨h0, h1⟩
  · rw [hc]
    constructor
    · have : (0 : ℚ) ≤ (7/10 : ℚ) := by norm_num
      exact mul_nonneg h0 this
    · have h7 : (7/10 : ℚ) ≤ 1 := by norm_num
      calc (tc : ℚ) / (totalOf ctr : ℚ) * (7/10)
          ≤ 1 * 1 := by
            exact mul_le_mul h1 h7 (by norm_num) (by norm_num)
        _ = 1 := by norm_num

/-! ## Lemmas about association-list lookups and the aggregation updates -/

theorem lookupA_mem {α β : Type} [DecidableEq α] {a : α} {l : List (α × β)} {v : β}
    (h : lookupA a l = some v) : (a, v) ∈ l := by
  induction l with
  | nil => simp [lookupA] at h
  | cons p rest ih =>
    obtain ⟨k, w⟩ := p
    unfold lookupA at h
    split at h
    · rename_i hk
      subst hk
      rw [Option.some.injEq] at h
      subst h
      exact List.mem_cons_self _ _
    · exact List.mem_cons_of_mem _ (ih h)

theorem assoc_nodup_eq {α β : Type} [DecidableEq α] {l : List (α × β)}
    (hnd : (l.map Prod.fst).Nodup) {a : α} {b1 b2 : β}
    (h1 : (a, b1) ∈ l) (h2 : (a, b2) ∈ l) : b1 = b2 := by
  induction l with
  | nil => simp at h1
  | cons p rest ih =>
    obtain ⟨k, w⟩ := p
    rw [List.map_cons, List.nodup_cons] at hnd
    rcases List.mem_cons.mp h1 with he1 | hm1 <;>
      rcases List.mem_cons.mp h2 with he2 | hm2
    · rw [Prod.mk.injEq] at he1 he2
      rw [he1.2, he2.2]
    · rw [Prod.mk.injEq] at he1
      exfalso
      exact hnd.1 (he1.1 ▸ List.mem_map.mpr ⟨(a, b2), hm2, rfl⟩)
    · rw [Prod.mk.injEq] at he2
      exfalso
      exact hnd.1 (he2.1 ▸ List.mem_map.mpr ⟨(a, b1), hm1, rfl⟩)
    · exact ih hnd.2 hm1 hm2

theorem lookupA_addName (f g f2 : String) (t : GTable) :
    lookupA f2 (addName f g t) =
      if f2 = f then some (bump g ((lookupA f t).getD [])) else lookupA f2 t := by
  induction t with
  | nil =>
    by_cases h : f2 = f
    · subst h
      simp [addName, lookupA]
    · simp [addName, lookupA, h, Ne.symm h]
  | cons p rest ih =>
    obtain ⟨k, c⟩ := p
    by_cases hk : k = f
    · subst hk
      rw [show addName k g ((k, c) :: rest) = (k, bump g c) :: rest from by
        simp [addName]]
      by_cases h2 : f2 = k
      · subst h2
        simp [lookupA]
      · rw [if_neg h2]
        simp [lookupA, Ne.symm h2]
    · rw [show addName f g ((k, c) :: rest) = (k, c) :: addName f g rest from by
        simp [addName, hk]]
      by_cases h2 : k = f2
      · subst h2
        simp [lookupA, hk]
      · show (if k = f2 then some c else lookupA f2 (addName f g rest)) = _
        rw [if_neg h2, ih]
        by_cases hf : f2 = f
        · subst hf
          simp [lookupA, h2]
        · simp [lookupA, hf, h2]

theorem lookupA_addCountry (c f g c2 : String) (bc : CTable) :
    lookupA c2 (addCountry c f g bc) =
      if c2 = c then some (addName f g ((lookupA c bc).getD []))
      else lookupA c2 bc := by
  induction bc with
  | nil =>
    by_cases h : c2 = c
    · subst h
      simp [addCountry, lookupA]
    · simp [addCountry, lookupA, h, Ne.symm h]
  | cons p rest ih =>
    obtain ⟨k, d⟩ := p
    by_cases hk : k = c
    · subst hk
      rw [show addCountry k f g ((k, d) :: rest) = (k, addName f g d) :: rest from by
        simp [addCountry]]
      by_cases h2 : c2 = k
      · subst h2
        simp [lookupA]
      · rw [if_neg h2]
        simp [lookupA, Ne.symm h2]
    · rw [show addCountry c f g ((k, d) :: rest) = (k, d) :: addCountry c f g rest from by
        simp [addCountry, hk]]
      by_cases h2 : k = c2
      · subst h2
        simp [lookupA, hk]
      · show (if k = c2 then some d else lookupA c2 (addCountry c f g rest)) = _
        rw [if_neg h2, ih]
        by_cases hf : c2 = c
        · subst hf
          simp [lookupA, h2]
        · simp [lookupA, hf, h2]

theorem totalOf_bump (g : String) (ctr : Counter) :
    totalOf (bump g ctr) = totalOf ctr + 1 := by
  induction ctr with
  | nil => rfl
  | cons p rest ih =>
    obtain ⟨k, n⟩ := p
    by_cases h : k = g
    · simp [bump, h, totalOf]
      omega
    · simp [bump, h, totalOf] at ih ⊢
      omega

theorem gTotal_addName (f g f2 : String) (t : GTable) :
    gTotal (addName f g t) f2 = gTotal t f2 + (if f2 = f then 1 else 0) := by
  unfold gTotal
  rw [lookupA_addName]
  by_cases h : f2 = f
  · subst h
    rw [if_pos rfl, if_pos rfl, Option.getD_some, totalOf_bump]
  · rw [if_neg h, if_neg h]
    simp

theorem cTotal_addCountry (c f g c2 f2 : String) (bc : CTable) :
    cTotal (addCountry c f g bc) c2 f2 =
      cTotal bc c2 f2 + (if c2 = c ∧ f2 = f then 1 else 0) := by
  unfold cTotal
  rw [lookupA_addCountry]
  by_cases h : c2 = c
  · subst h
    rw [if_pos rfl, Option.getD_some, gTotal_addName]
    by_cases h2 : f2 = f
    · simp [h2]
    · simp [h2]
  · have hcf : ¬ (c2 = c ∧ f2 = f) := fun hh => h hh.1
    rw [if_neg h, if_neg hcf]
    simp

/-! ## Invariants of the aggregation loop -/

theorem foldl_aggStep_pres {P : GTable × CTable → Prop}
    (hstep : ∀ s r, P s → P (aggStep s r)) :
    ∀ (rows : List RefRow) (s : GTable × CTable), P s → P (rows.foldl aggStep s) := by
  intro rows
  induction rows with
  | nil => intro s h; exact h
  | cons r rs ih => intro s h; exact ih _ (hstep s r h)

theorem aggStep_cases (s : GTable × CTable) (r : RefRow) :
    aggStep s r = s ∨
    ∃ fname gnorm,
      fname ≠ ("") ∧
      ((aggStep s r = (addName fname gnorm s.1, s.2)) ∨
       ∃ ck, ck ≠ ("") ∧ aggStep s r = (addName fname gnorm s.1, addCountry ck fname gnorm s.2)) := by
  unfold aggStep
  by_cases hf : get_first_name r.name = ("")
  · left
    simp [hf]
  · right
    refine ⟨get_first_name r.name, normalize_gender r.gender, hf, ?_⟩
    rcases hc : r.country with _ | craw
    · left
      simp [hf, hc]
    · by_cases hck : countryKey craw = ("")
      · left
        simp [hf, hc, hck]
      · right
        refine ⟨countryKey craw, hck, ?_⟩
        simp [hf, hc, hck]

/-- Every per-country total is bounded by the corresponding global total:
each row counted under a country is also counted globally. -/
theorem aggregate_cTotal_le_gTotal (rows : List RefRow) :
    ∀ c f, cTotal (aggregate rows).2 c f ≤ gTotal (aggregate rows).1 f := by
  have base : ∀ c f, cTotal ([] : CTable) c f ≤ gTotal ([] : GTable) f := by
    intro c f
    simp [cTotal, gTotal, lookupA, totalOf]
  refine @foldl_aggStep_pres (fun s => ∀ c f, cTotal s.2 c f ≤ gTotal s.1 f)
    ?_ rows ([], []) base
  intro s r h c f
  rcases aggStep_cases s r with heq | ⟨fname, gnorm, _, heq | ⟨ck, _, heq⟩⟩
  · rw [heq]; exact h c f
  · rw [heq]
    show cTotal s.2 c f ≤ gTotal (addName fname gnorm s.1) f
    rw [gTotal_addName]
    exact le_trans (h c f) (Nat.le_add_right _ _)
  · rw [heq]
    show cTotal (addCountry ck fname gnorm s.2) c f ≤ gTotal (addName fname gnorm s.1) f
    rw [cTotal_addCountry, gTotal_addName]
    by_cases hcf : c = ck ∧ f = fname
    · rw [if_pos hcf, if_pos hcf.2]
      exact Nat.add_le_add_right (h c f) 1
    · rw [if_neg hcf]
      exact le_trans (by simpa using h c f) (Nat.le_add_right _ _)

/-- Every counter stored in the global table has a positive total. -/
theorem aggregate_gTable_pos (rows : List RefRow) :
    ∀ f ctr, lookupA f (aggregate rows).1 = some ctr → 0 < totalOf ctr := by
  have base : ∀ f ctr, lookupA f ([] : GTable) = some ctr → 0 < totalOf ctr := by
    intro f ctr h
    simp [lookupA] at h
  refine @foldl_aggStep_pres (fun s => ∀ f ctr, lookupA f s.1 = some ctr → 0 < totalOf ctr)
    ?_ rows ([], []) base
  intro s r h f ctr hl
  rcases aggStep_cases s r with heq | ⟨fname, gnorm, _, heq | ⟨ck, _, heq⟩⟩ <;>
    rw [heq] at hl
  · exact h f ctr hl
  all_goals {
    rw [lookupA_addName] at hl
    by_cases hf : f = fname
    · rw [if_pos hf] at hl
      rw [Option.some.injEq] at hl
      rw [← hl, totalOf_bump]
      omega
    · rw [if_neg hf] at hl
      exact h f ctr hl
  }

/-- Every counter stored in the per-country table has a positive total. -/
theorem aggregate_cTable_pos (rows : List RefRow) :
    ∀ c d, lookupA c (aggregate rows).2 = some d →
      ∀ f ctr, lookupA f d = some ctr → 0 < totalOf ctr := by
  have base : ∀ c d, lookupA c ([] : CTable) = some d →
      ∀ f ctr, lookupA f d = some ctr → 0 < totalOf ctr := by
    intro c d h
    simp [lookupA] at h
  refine @foldl_aggStep_pres
    (fun s => ∀ c d, lookupA c s.2 = some d →
      ∀ f ctr, lookupA f d = some ctr → 0 < totalOf ctr) ?_ rows ([], []) base
  intro s r h c d hl f ctr hl2
  rcases aggStep_cases s r with heq | ⟨fname, gnorm, _, heq | ⟨ck, _, heq⟩⟩ <;>
    rw [heq] at hl
  · exact h c d hl f ctr hl2
  · exact h c d hl f ctr hl2
  · rw [lookupA_addCountry] at hl
    by_cases hc : c = ck
    · rw [if_pos hc] at hl
      rw [Option.some.injEq] at hl
      rw [← hl] at hl2
      rw [lookupA_addName] at hl2
      by_cases hf : f = fname
      · rw [if_pos hf] at hl2
        rw [Option.some.injEq] at hl2
        rw [← hl2, totalOf_bump]
        omega
      · rw [if_neg hf] at hl2
        rcases hx : lookupA ck s.2 with _ | d0
        · rw [hx] at hl2
          simp [lookupA] at hl2
        · rw [hx] at hl2
          exact h ck d0 hx f ctr hl2
    · rw [if_neg hc] at hl
      exact h c d hl f ctr hl2

theorem mem_map_fst_addName {a f g : String} {t : GTable}
    (h : a ∈ (addName f g t).map Prod.fst) : a ∈ t.map Prod.fst ∨ a = f := by
  induction t with
  | nil =>
    simp [addName] at h
    exact Or.inr h
  | cons p rest ih =>
    obtain ⟨k, c⟩ := p
    by_cases hk : k = f
    · rw [show addName f g ((k, c) :: rest) = (k, bump g c) :: rest from by
        simp [addName, hk]] at h
      simp at h
      rcases h with h | h
      · left; simp [h]
      · left; simp [h]
    · rw [show addName f g ((k, c) :: rest) = (k, c) :: addName f g rest from by
        simp [addName, hk]] at h
      simp at h
      rcases h with h | h
      · left; simp [h]
      · rcases ih (by simpa using h) with h2 | h2
        · left; simp [h2]
        · right; exact h2

theorem nodup_map_fst_addName {f g : String} {t : GTable}
    (h : (t.map Prod.fst).Nodup) : ((addName f g t).map Prod.fst).Nodup := by
  induction t with
  | nil => simp [addName]
  | cons p rest ih =>
    obtain ⟨k, c⟩ := p
    rw [List.map_cons, List.nodup_cons] at h
    by_cases hk : k = f
    · rw [show addName f g ((k, c) :: rest) = (k, bump g c) :: rest from by
        simp [addName, hk]]
      simp only [List.map_cons, List.nodup_cons]
      exact ⟨h.1, h.2⟩
    · rw [show addName f g ((k, c) :: rest) = (k, c) :: addName f g rest from by
        simp [addName, hk]]
      simp only [List.map_cons, List.nodup_cons]
      refine ⟨?_, ih h.2⟩
      intro hmem
      rcases mem_map_fst_addName hmem with h2 | h2
      · exact h.1 h2
      · exact hk h2

theorem mem_map_fst_addCountry {a c f g : String} {bc : CTable}
    (h : a ∈ (addCountry c f g bc).map Prod.fst) : a ∈ bc.map Prod.fst ∨ a = c := by
  induction bc with
  | nil =>
    simp [addCountry] at h
    exact Or.inr h
  | cons p rest ih =>
    obtain ⟨k, d⟩ := p
    by_cases hk : k = c
    · rw [show addCountry c f g ((k, d) :: rest) = (k, addName f g d) :: rest from by
        simp [addCountry, hk]] at h
      simp at h
      rcases h with h | h
      · left; simp [h]
      · left; simp [h]
    · rw [show addCountry c f g ((k, d) :: rest) = (k, d) :: addCountry c f g rest from by
        simp [addCountry, hk]] at h
      simp at h
      rcases h with h | h
      · left; simp [h]
      · rcases ih (by simpa using h) with h2 | h2
        · left; simp [h2]
        · right; exact h2

theorem nodup_map_fst_addCountry {c f g : String} {bc : CTable}
    (h : (bc.map Prod.fst).Nodup) : ((addCountry c f g bc).map Prod.fst).Nodup := by
  induction bc with
  | nil => simp [addCountry]
  | cons p rest ih =>
    obtain ⟨k, d⟩ := p
    rw [List.map_cons, List.nodup_cons] at h
    by_cases hk : k = c
    · rw [show addCountry c f g ((k, d) :: rest) = (k, addName f g d) :: rest from by
        simp [addCountry, hk]]
      simp only [List.map_cons, List.nodup_cons]
      exact ⟨h.1, h.2⟩
    · rw [show addCountry c f g ((k, d) :: rest) = (k, d) :: addCountry c f g rest from by
        simp [addCountry, hk]]
      simp only [List.map_cons, List.nodup_cons]
      refine ⟨?_, ih h.2⟩
      intro hmem
      rcases mem_map_fst_addCountry hmem with h2 | h2
      · exact h.1 h2
      · exact hk h2

/-- The country keys of the aggregated per-country table are distinct. -/
theorem aggregate_country_keys_nodup (rows : List RefRow) :
    ((aggregate rows).2.map Prod.fst).Nodup := by
  refine @foldl_aggStep_pres (fun s => (s.2.map Prod.fst).Nodup) ?_ rows ([], []) (by simp)
  intro s r h
  rcases aggStep_cases s r with heq | ⟨fname, gnorm, _, heq | ⟨ck, _, heq⟩⟩ <;> rw [heq]
  · exact h
  · exact h
  · exact nodup_map_fst_addCountry h

/-- The name keys of the aggregated global table are distinct. -/
theorem aggregate_global_keys_nodup (rows : List RefRow) :
    ((aggregate rows).1.map Prod.fst).Nodup := by
  refine @foldl_aggStep_pres (fun s => (s.1.map Prod.fst).Nodup) ?_ rows ([], []) (by simp)
  intro s r h
  rcases aggStep_cases s r with heq | ⟨fname, gnorm, _, heq | ⟨ck, _, heq⟩⟩ <;> rw [heq]
  · exact h
  all_goals exact nodup_map_fst_addName h

/-! ## Lookup characterization of the built mappings -/

theorem lookupA_buildMapping (counts : GTable) (f : String)
    (hall : ∀ p ∈ counts, (mkEntry p.2).isSome) :
    lookupA f (buildMapping counts) = (lookupA f counts).bind mkEntry := by
  induction counts with
  | nil => rfl
  | cons p rest ih =>
    obtain ⟨k, ctr⟩ := p
    obtain ⟨e, he⟩ := Option.isSome_iff_exists.mp (hall (k, ctr) (List.mem_cons_self _ _))
    have hbm : buildMapping ((k, ctr) :: rest) = (k, e) :: buildMapping rest := by
      simp [buildMapping, he]
    rw [hbm]
    show (if k = f then some e else lookupA f (buildMapping rest)) = _
    by_cases hk : k = f
    · rw [if_pos hk]
      show _ = (if k = f then some ctr else lookupA f rest).bind mkEntry
      rw [if_pos hk]
      simp [he]
    · rw [if_neg hk]
      show _ = (if k = f then some ctr else lookupA f rest).bind mkEntry
      rw [if_neg hk]
      exact ih (fun q hq => hall q (List.mem_cons_of_mem _ hq))

theorem lookupA_append_some {α β : Type} [DecidableEq α] {a : α}
    {l1 l2 : List (α × β)} {v : β} (h : lookupA a l1 = some v) :
    lookupA a (l1 ++ l2) = some v := by
  induction l1 with
  | nil => simp [lookupA] at h
  | cons p rest ih =>
    obtain ⟨k, w⟩ := p
    show (if k = a then some w else lookupA a (rest ++ l2)) = some v
    unfold lookupA at h
    split at h
    · rename_i hk
      rw [if_pos hk]
      exact h
    · rename_i hk
      rw [if_neg hk]
      exact ih h

theorem lookupA_append_none {α β : Type} [DecidableEq α] {a : α}
    {l1 : List (α × β)} (l2 : List (α × β)) (h : lookupA a l1 = none) :
    lookupA a (l1 ++ l2) = lookupA a l2 := by
  induction l1 with
  | nil => rfl
  | cons p rest ih =>
    obtain ⟨k, w⟩ := p
    show (if k = a then some w else lookupA a (rest ++ l2)) = lookupA a l2
    unfold lookupA at h
    split at h
    · exact absurd h (by simp)
    · rename_i hk
      rw [if_neg hk]
      exact ih h

theorem lookupA_tagged (c k f : String) (l : List (String × CEntry)) :
    lookupA (c, f) (l.map (fun q => ((k, q.1), q.2))) =
      if c = k then lookupA f l else none := by
  induction l with
  | nil => simp [lookupA]
  | cons q rest ih =>
    obtain ⟨a, b⟩ := q
    show (if (k, a) = (c, f) then some b else
          lookupA (c, f) (rest.map (fun q => ((k, q.1), q.2)))) = _
    rw [ih]
    by_cases hc : c = k
    · subst hc
      by_cases ha : a = f
      · subst ha
        simp [lookupA]
      · have : ¬ ((c, a) = (c, f)) := by simp [ha]
        rw [if_neg this, if_pos rfl, if_pos rfl]
        show _ = (if a = f then some b else lookupA f rest)
        rw [if_neg ha]
    · have : ¬ ((k, a) = (c, f)) := by
        intro hh
        rw [Prod.mk.injEq] at hh
        exact hc hh.1.symm
      rw [if_neg this, if_neg hc, if_neg hc]

theorem lookupA_bmc_not_mem {c : String} (f : String) {rest : CTable}
    (hc : c ∉ rest.map Prod.fst) :
    lookupA (c, f) (buildMappingCountry rest) = none := by
  induction rest with
  | nil => rfl
  | cons p rs ih =>
    obtain ⟨k, d⟩ := p
    have hbmc : buildMappingCountry ((k, d) :: rs) =
        ((buildMapping d).map (fun q => ((k, q.1), q.2))) ++ buildMappingCountry rs := by
      simp [buildMappingCountry]
    rw [hbmc]
    have hck : c ≠ k := by
      intro hh
      exact hc (by simp [hh])
    have h1 : lookupA (c, f) ((buildMapping d).map (fun q => ((k, q.1), q.2))) = none := by
      rw [lookupA_tagged, if_neg hck]
    rw [lookupA_append_none _ h1]
    exact ih (fun hh => hc (by simp [hh]))

theorem lookupA_buildMappingCountry (bc : CTable) (c f : String)
    (hnd : (bc.map Prod.fst).Nodup)
    (hall : ∀ p ∈ bc, ∀ q ∈ p.2, (mkEntry q.2).isSome) :
    lookupA (c, f) (buildMappingCountry bc) =
      (lookupA c bc).bind (fun d => (lookupA f d).bind mkEntry) := by
  induction bc with
  | nil => rfl
  | cons p rest ih =>
    obtain ⟨k, d⟩ := p
    rw [List.map_cons, List.nodup_cons] at hnd
    have hbmc : buildMappingCountry ((k, d) :: rest) =
        ((buildMapping d).map (fun q => ((k, q.1), q.2))) ++ buildMappingCountry rest := by
      simp [buildMappingCountry]
    rw [hbmc]
    by_cases hc : c = k
    · subst hc
      have hblock : lookupA (c, f) ((buildMapping d).map (fun q => ((c, q.1), q.2))) =
          (lookupA f d).bind mkEntry := by
        rw [lookupA_tagged, if_pos rfl]
        exact lookupA_buildMapping d f (hall (c, d) (List.mem_cons_self _ _))
      have hrhs : (lookupA c ((c, d) :: rest)).bind
          (fun d0 => (lookupA f d0).bind mkEntry) = (lookupA f d).bind mkEntry := by
        show ((if c = c then some d else lookupA c rest).bind
          (fun d0 => (lookupA f d0).bind mkEntry)) = _
        rw [if_pos rfl]
        rfl
      rw [hrhs]
      rcases hv : (lookupA f d).bind mkEntry with _ | v
      · rw [hv] at hblock
        rw [lookupA_append_none _ hblock]
        exact lookupA_bmc_not_mem f hnd.1
      · rw [hv] at hblock
        exact lookupA_append_some hblock
    · have hblock : lookupA (c, f) ((buildMapping d).map (fun q => ((k, q.1), q.2))) = none := by
        rw [lookupA_tagged, if_neg hc]
      rw [lookupA_append_none _ hblock]
      have hrhs : lookupA c ((k, d) :: rest) = lookupA c rest := by
        show (if k = c then some d else lookupA c rest) = lookupA c rest
        rw [if_neg (fun hh => hc hh.symm)]
      rw [hrhs]
      exact ih hnd.2 (fun q hq => hall q (List.mem_cons_of_mem _ hq))

theorem lookupA_of_mem_nodup {α β : Type} [DecidableEq α] {l : List (α × β)}
    (hnd : (l.map Prod.fst).Nodup) {a : α} {b : β} (h : (a, b) ∈ l) :
    lookupA a l = some b := by
  induction l with
  | nil => simp at h
  | cons p rest ih =>
    obtain ⟨k, w⟩ := p
    rw [List.map_cons, List.nodup_cons] at hnd
    show (if k = a then some w else lookupA a rest) = some b
    rcases List.mem_cons.mp h with he | hm
    · rw [Prod.mk.injEq] at he
      rw [if_pos he.1.symm, he.2]
    · by_cases hk : k = a
      · exfalso
        exact hnd.1 (hk ▸ List.mem_map.mpr ⟨(a, b), hm, rfl⟩)
      · rw [if_neg hk]
        exact ih hnd.2 hm

theorem mem_addName_cases {p : String × Counter} {f g : String} {t : GTable}
    (h : p ∈ addName f g t) : p ∈ t ∨ ∃ c, p = (f, bump g c) := by
  induction t with
  | nil =>
    simp [addName] at h
    exact Or.inr ⟨[], by simp [h]⟩
  | cons q rest ih =>
    obtain ⟨k, cv⟩ := q
    by_cases hk : k = f
    · subst hk
      rw [show addName k g ((k, cv) :: rest) = (k, bump g cv) :: rest from by
        simp [addName]] at h
      rcases List.mem_cons.mp h with he | hm
      · exact Or.inr ⟨cv, he⟩
      · exact Or.inl (List.mem_cons_of_mem _ hm)
    · rw [show addName f g ((k, cv) :: rest) = (k, cv) :: addName f g rest from by
        simp [addName, hk]] at h
      rcases List.mem_cons.mp h with he | hm
      · exact Or.inl (he ▸ List.mem_cons_self _ _)
      · rcases ih hm with h2 | h2
        · exact Or.inl (List.mem_cons_of_mem _ h2)
        · exact Or.inr h2

theorem mem_addCountry_cases {p : String × GTable} {c f g : String} {bc : CTable}
    (h : p ∈ addCountry c f g bc) :
    p ∈ bc ∨ ∃ d, (d = [] ∨ ∃ k0, (k0, d) ∈ bc) ∧ p.2 = addName f g d := by
  induction bc with
  | nil =>
    simp [addCountry] at h
    exact Or.inr ⟨[], Or.inl rfl, by simp [h]⟩
  | cons q rest ih =>
    obtain ⟨k, dv⟩ := q
    by_cases hk : k = c
    · subst hk
      rw [show addCountry k f g ((k, dv) :: rest) = (k, addName f g dv) :: rest from by
        simp [addCountry]] at h
      rcases List.mem_cons.mp h with he | hm
      · exact Or.inr ⟨dv, Or.inr ⟨k, List.mem_cons_self _ _⟩, by rw [he]⟩
      · exact Or.inl (List.mem_cons_of_mem _ hm)
    · rw [show addCountry c f g ((k, dv) :: rest) = (k, dv) :: addCountry c f g rest from by
        simp [addCountry, hk]] at h
      rcases List.mem_cons.mp h with he | hm
      · exact Or.inl (he ▸ List.mem_cons_self _ _)
      · rcases ih hm with h2 | h2
        · exact Or.inl (List.mem_cons_of_mem _ h2)
        · rcases h2 with ⟨d, hd, hp2⟩
          refine Or.inr ⟨d, ?_, hp2⟩
          rcases hd with hd | ⟨k0, hk0⟩
          · exact Or.inl hd
          · exact Or.inr ⟨k0, List.mem_cons_of_mem _ hk0⟩

theorem aggregate_gTable_pos_mem (rows : List RefRow) :
    ∀ p ∈ (aggregate rows).1, 0 < totalOf p.2 := by
  refine @foldl_aggStep_pres (fun s => ∀ p ∈ s.1, 0 < totalOf p.2)
    ?_ rows ([], []) (by simp)
  intro s r h p hp
  rcases aggStep_cases s r with heq | ⟨fname, gnorm, _, heq | ⟨ck, _, heq⟩⟩ <;>
    rw [heq] at hp
  · exact h p hp
  all_goals {
    rcases mem_addName_cases hp with hm | ⟨c0, hc0⟩
    · exact h p hm
    · rw [hc0]
      show 0 < totalOf (bump gnorm c0)
      rw [totalOf_bump]
      omega
  }

theorem aggregate_cTable_pos_mem (rows : List RefRow) :
    ∀ p ∈ (aggregate rows).2, ∀ q ∈ p.2, 0 < totalOf q.2 := by
  refine @foldl_aggStep_pres (fun s => ∀ p ∈ s.2, ∀ q ∈ p.2, 0 < totalOf q.2)
    ?_ rows ([], []) (by simp)
  intro s r h p hp q hq
  rcases aggStep_cases s r with heq | ⟨fname, gnorm, _, heq | ⟨ck, _, heq⟩⟩ <;>
    rw [heq] at hp
  · exact h p hp q hq
  · exact h p hp q hq
  · rcases mem_addCountry_cases hp with hm | ⟨d, hd, hp2⟩
    · exact h p hm q hq
    · rw [hp2] at hq
      rcases mem_addName_cases hq with hm2 | ⟨c0, hc0⟩
      · rcases hd with rfl | ⟨k0, hk0⟩
        · simp at hm2
        · exact h (k0, d) hk0 q hm2
      · rw [hc0]
        show 0 < totalOf (bump gnorm c0)
        rw [totalOf_bump]
        omega

/-! ## Claims -/

/-- Claim C10: for every reference dataset, every key `(country, name)` present
in the country-scoped mapping has the name also present in the global mapping,
and the scoped entry's total count is at most the global entry's total count,
because every row counted into the per-country table is also counted into the
global table. -/
theorem claim_C10 (rows : List RefRow) (c f : String) (e : CEntry)
    (h : lookupA (c, f) (buildMappingCountry (aggregate rows).2) = some e) :
    ∃ e2, lookupA f (buildMapping (aggregate rows).1) = some e2 ∧ e.2.2 ≤ e2.2.2 := by
  have hallc : ∀ p ∈ (aggregate rows).2, ∀ q ∈ p.2, (mkEntry q.2).isSome :=
    fun p hp q hq => mkEntry_isSome (aggregate_cTable_pos_mem rows p hp q hq)
  have hallg : ∀ p ∈ (aggregate rows).1, (mkEntry p.2).isSome :=
    fun p hp => mkEntry_isSome (aggregate_gTable_pos_mem rows p hp)
  rw [lookupA_buildMappingCountry _ _ _ (aggregate_country_keys_nodup rows) hallc] at h
  rcases hd : lookupA c (aggregate rows).2 with _ | d
  · rw [hd] at h
    simp at h
  · rw [hd] at h
    rcases hctr : lookupA f d with _ | ctr
    · rw [show (some d).bind (fun d0 => (lookupA f d0).bind mkEntry) =
          (lookupA f d).bind mkEntry from rfl, hctr] at h
      simp at h
    · rw [show (some d).bind (fun d0 => (lookupA f d0).bind mkEntry) =
          (lookupA f d).bind mkEntry from rfl, hctr] at h
      have hme : mkEntry ctr = some e := h
      have het : e.2.2 = totalOf ctr := mkEntry_total hme
      have hct : cTotal (aggregate rows).2 c f = totalOf ctr := by
        unfold cTotal gTotal
        rw [hd, Option.getD_some, hctr, Option.getD_some]
      have hpos : 0 < totalOf ctr :=
        aggregate_cTable_pos_mem rows _ (lookupA_mem hd) _ (lookupA_mem hctr)
      have hle := aggregate_cTotal_le_gTotal rows c f
      rw [hct] at hle
      rcases hg : lookupA f (aggregate rows).1 with _ | gctr
      · exfalso
        have h0 : gTotal (aggregate rows).1 f = 0 := by
          unfold gTotal
          rw [hg]
          rfl
        rw [h0] at hle
        omega
      · have hgt : gTotal (aggregate rows).1 f = totalOf gctr := by
          unfold gTotal
          rw [hg, Option.getD_some]
        obtain ⟨e2, he2⟩ := Option.isSome_iff_exists.mp (hallg _ (lookupA_mem hg))
        refine ⟨e2, ?_, ?_⟩
        · rw [lookupA_buildMapping _ _ hallg, hg]
          exact he2
        · rw [het, mkEntry_total he2, ← hgt]
          exact hle

/-- Claim C10 witness at `c3rows`, country `US`, name `mika`. -/
theorem claim_C10_witness :
    ∃ e2, lookupA ("mika") (buildMapping (aggregate c3rows).1) = some e2 ∧
      (5 : ℕ) ≤ e2.2.2 :=
  claim_C10 c3rows ("US") ("mika") (("F"), 3/5, 5) (by
    rw [show (aggregate c3rows).2 = [(("US"), [(("mika"), [(("F"), 3), (("M"), 2)])])]
      from by decide]
    norm_num [buildMappingCountry, buildMapping, mkEntry, most_common, insertDesc,
      totalOf, lookupA, MIN_COUNT_FOR_CONFIDENCE])

/-- Claim C8: every confidence stored in the global or country-scoped mapping
built from any reference dataset lies in the closed interval `[0, 1]`. -/
theorem claim_C8 (rows : List RefRow) (f : String) (e : CEntry)
    (h : (f, e) ∈ buildMapping (aggregate rows).1 ∨
         ∃ c, ((c, f), e) ∈ buildMappingCountry (aggregate rows).2) :
    0 ≤ e.2.1 ∧ e.2.1 ≤ 1 := by
  rcases h with h | ⟨c, h⟩
  · obtain ⟨p, hp, hsome⟩ := List.mem_filterMap.mp h
    rcases hme : mkEntry p.2 with _ | e0
    · rw [hme] at hsome
      simp at hsome
    · rw [hme] at hsome
      simp at hsome
      rw [hsome.2] at hme
      exact mkEntry_conf_bounds hme
  · obtain ⟨sub, hsub, hmem⟩ := List.mem_flatten.mp h
    obtain ⟨p, _, hpsub⟩ := List.mem_map.mp hsub
    rw [← hpsub] at hmem
    obtain ⟨q, hq, hqe⟩ := List.mem_map.mp hmem
    obtain ⟨p2, _, hsome⟩ := List.mem_filterMap.mp hq
    rcases hme : mkEntry p2.2 with _ | e0
    · rw [hme] at hsome
      simp at hsome
    · rw [hme] at hsome
      simp at hsome
      have hqe2 : q.2 = e := congrArg Prod.snd hqe
      have he0 : e0 = e := by
        rw [← hsome] at hqe2
        exact hqe2
      rw [he0] at hme
      exact mkEntry_conf_bounds hme

/-- Claim C8 witness: the entry built from the C1 scenario rows. -/
theorem claim_C8_witness : 0 ≤ (7 : ℚ)/15 ∧ (7 : ℚ)/15 ≤ 1 :=
  claim_C8 c1rows ("alex") (("F"), 7/15, 3) (Or.inl (by
    rw [show (aggregate c1rows).1 = [(("alex"), [(("M"), 1), (("F"), 2)])]
      from by decide]
    norm_num [buildMapping, mkEntry, most_common, insertDesc, totalOf,
      MIN_COUNT_FOR_CONFIDENCE]))

/-- Claim C5: the count table `{M: 8, F: 2}` (total 10, at least
`MIN_COUNT_FOR_CONFIDENCE`) yields confidence exactly `0.8 = 4/5` with no
penalty, and `{M: 3, F: 1}` (total 4, below the minimum, raw confidence
`0.75 < 1`) yields the penalized confidence `0.75 * 0.7 = 0.525 = 21/40`. -/
theorem claim_C5 :
    mkEntry [(("M"), 8), (("F"), 2)] = some (("M"), 4/5, 10) ∧
    mkEntry [(("M"), 3), (("F"), 1)] = some (("M"), 21/40, 4) := by
  constructor <;>
    norm_num [mkEntry, most_common, insertDesc, totalOf, MIN_COUNT_FOR_CONFIDENCE]

/-- Claim C6: `get_first_name` returns the empty token for `"K N Johnson"`
(initial followed by a length-1 second token), `"johnson"` for `"K Johnson"`,
and `"mary"` for `"Mary Ann Smith"`. -/
theorem claim_C6 :
    get_first_name ("K N Johnson") = ("") ∧
    get_first_name ("K Johnson") = ("johnson") ∧
    get_first_name ("Mary Ann Smith") = ("mary") := by
  decide

/-- Claim C4 counterexample: aggregating `[("Alex","F"), ("Alex","M")]` gives
the tied counter `{F: 1, M: 1}` with `F` observed first, and the stored top
label is `F`, not the fixed-enumeration-order label `M` the claim predicts. -/
theorem claim_C4_counterexample :
    lookupA ("alex") (buildMapping (aggregate c4rows).1) = some (("F"), 7/20, 2) ∧
    ("F" : String) ≠ ("M") := by
  constructor
  · rw [show (aggregate c4rows).1 = [(("alex"), [(("F"), 1), (("M"), 1)])]
      from by decide]
    norm_num [buildMapping, mkEntry, most_common, insertDesc, totalOf, lookupA,
      MIN_COUNT_FOR_CONFIDENCE]
  · decide

/-- Claim C4 (amended): the stored top label for a count table is the
first-observed (earliest-inserted) label among those attaining the maximal
count — a tie between labels is broken by insertion order, which depends on
the order the reference rows were observed, not by the fixed enumeration
order Male before Female before Unknown. -/
theorem claim_C4 (ctr : Counter) (g : String) (conf : ℚ) (total : ℕ)
    (h : mkEntry ctr = some (g, conf, total)) :
    ∃ c l1 l2, ctr = l1 ++ (g, c) :: l2 ∧ (∀ q ∈ ctr, q.2 ≤ c) ∧
      ∀ q ∈ l1, q.2 < c := by
  obtain ⟨tc, _, hhead, _, _⟩ := mkEntry_inv h
  obtain ⟨hmax, l1, l2, hsplit, hlt⟩ :=
    most_common_head_spec ctr (((g, conf, total) : CEntry).1, tc) hhead
  exact ⟨tc, l1, l2, hsplit, hmax, hlt⟩

/-- Claim C4 witness: the tied counter `{F: 1, M: 1}` and its stored entry. -/
theorem claim_C4_witness :
    ∃ c l1 l2, ([(("F"), 1), (("M"), 1)] : Counter) = l1 ++ (("F"), c) :: l2 ∧
      (∀ q ∈ ([(("F"), 1), (("M"), 1)] : Counter), q.2 ≤ c) ∧ ∀ q ∈ l1, q.2 < c :=
  claim_C4 [(("F"), 1), (("M"), 1)] ("F") (7/20) 2 (by
    norm_num [mkEntry, most_common, insertDesc, totalOf, MIN_COUNT_FOR_CONFIDENCE])

theorem auditItem_fst {p : String × Counter} {r : String × String × ℕ × ℕ × ℕ × ℚ}
    (h : auditItem p = some r) : r.1 = p.1 := by
  unfold auditItem at h
  split at h
  · exact absurd h (by simp)
  · split at h
    · exact absurd h (by simp)
    · split at h
      · rw [Option.some.injEq] at h
        rw [← h]
      · exact absurd h (by simp)

theorem auditItem_isSome_iff {f : String} {ctr : Counter} (htot : 0 < totalOf ctr) :
    (auditItem (f, ctr)).isSome ↔
      (totalOf ctr < 50 ∨ (top_count ctr : ℚ) / (totalOf ctr : ℚ) < 7/10 ∨
       (1 < (most_common ctr).length ∧
        (top_count ctr : ℤ) - (second_count ctr : ℤ) < 3)) := by
  unfold auditItem top_count second_count
  rw [if_neg (Nat.pos_iff_ne_zero.mp htot)]
  rcases hmc : most_common ctr with _ | ⟨⟨tg, tc⟩, rest⟩
  · exfalso
    have hnil : ctr = [] := (most_common_eq_nil_iff ctr).mp hmc
    rw [hnil] at htot
    simp [totalOf] at htot
  · rcases rest with _ | ⟨⟨tg2, tc2⟩, rest2⟩
    · by_cases hcond : totalOf ctr < 50 ∨ (tc : ℚ) / (totalOf ctr : ℚ) < 7/10
      · rcases hcond with hcond | hcond <;> simp [hcond]
      · push_neg at hcond
        simp [hcond.1, hcond.2, not_lt.mpr hcond.2]
    · by_cases hcond : totalOf ctr < 50 ∨ (tc : ℚ) / (totalOf ctr : ℚ) < 7/10 ∨
          (tc : ℤ) - (tc2 : ℤ) < 3
      · rcases hcond with hcond | hcond | hcond <;> simp [hcond]
      · push_neg at hcond
        simp [not_lt.mpr hcond.1, not_lt.mpr hcond.2.1, not_lt.mpr hcond.2.2]


/-- Claim C7: for every name of the aggregated global table with positive
total, the name is emitted in the audit report iff its total is below 50, or
its unpenalized top share is below 0.7, or at least two labels were observed
(`most_common` has length above 1) and the gap between the top two counts is
below 3. -/
theorem claim_C7 (rows : List RefRow) (f : String) (ctr : Counter)
    (hmem : (f, ctr) ∈ (aggregate rows).1) (htot : 0 < totalOf ctr) :
    (∃ r ∈ auditRows (aggregate rows).1, r.1 = f) ↔
      (totalOf ctr < 50 ∨ (top_count ctr : ℚ) / (totalOf ctr : ℚ) < 7/10 ∨
       (1 < (most_common ctr).length ∧
        (top_count ctr : ℤ) - (second_count ctr : ℤ) < 3)) := by
  have hnd := aggregate_global_keys_nodup rows
  constructor
  · rintro ⟨r, hr, hrf⟩
    obtain ⟨p, hp, hsome⟩ := List.mem_filterMap.mp hr
    obtain ⟨f2, ctr2⟩ := p
    have hf2 : f2 = f := by
      have h1 : r.1 = f2 := auditItem_fst hsome
      rw [← h1, hrf]
    subst hf2
    have hctr2 : ctr2 = ctr := assoc_nodup_eq hnd hp hmem
    rw [hctr2] at hsome
    exact (auditItem_isSome_iff htot).mp (by rw [hsome]; rfl)
  · intro hcond
    obtain ⟨r, hr⟩ :=
      Option.isSome_iff_exists.mp ((auditItem_isSome_iff htot).mpr hcond)
    exact ⟨r, List.mem_filterMap.mpr ⟨(f, ctr), hmem, hr⟩, auditItem_fst hr⟩

/-- Claim C7 witness: the name `pat` with counts `{M: 1, F: 1}` (total 2 < 50)
is flagged. -/
theorem claim_C7_witness :
    ∃ r ∈ auditRows (aggregate c7rows).1, r.1 = ("pat") :=
  (claim_C7 c7rows ("pat") [(("M"), 1), (("F"), 1)] (by decide) (by decide)).mpr
    (Or.inl (by decide))

/-- Claim C9: every non-empty, non-header input row processed by the decision
loop produces an output row that is exactly the input fields, unchanged and in
order, followed by the three decision columns. -/
theorem claim_C9 (m : List (String × CEntry)) (mc : List ((String × String) × CEntry))
    (gga : Bool) (det : String → String) (rows : List (List String)) (row : List String)
    (hrow : row ∈ rows) (hne : row ≠ [])
    (hhdr : String.mk ((trimL (row.headD ("")).toList).map lowerChar) ≠ ("name")) :
    (row ++ [(decideRow m mc gga det row).1, fmt3 (decideRow m mc gga det row).2.1,
             (decideRow m mc gga det row).2.2]) ∈ processRows m mc gga det rows ∧
    (row ++ [(decideRow m mc gga det row).1, fmt3 (decideRow m mc gga det row).2.1,
             (decideRow m mc gga det row).2.2]).take row.length = row ∧
    (row ++ [(decideRow m mc gga det row).1, fmt3 (decideRow m mc gga det row).2.1,
             (decideRow m mc gga det row).2.2]).length = row.length + 3 := by
  refine ⟨?_, ?_, ?_⟩
  · refine List.mem_filterMap.mpr ⟨row, hrow, ?_⟩
    rw [if_neg hne, if_neg hhdr]
  · exact List.take_left _ _
  · simp

/-- Claim C9 witness: a one-field row through an empty mapping. -/
theorem claim_C9_witness :
    ((["Bob"] : List String) ++
      [(decideRow [] [] false detNone [("Bob")]).1,
       fmt3 (decideRow [] [] false detNone [("Bob")]).2.1,
       (decideRow [] [] false detNone [("Bob")]).2.2]) ∈
      processRows [] [] false detNone [[("Bob")]] ∧
    ((["Bob"] : List String) ++
      [(decideRow [] [] false detNone [("Bob")]).1,
       fmt3 (decideRow [] [] false detNone [("Bob")]).2.1,
       (decideRow [] [] false detNone [("Bob")]).2.2]).take
        ([("Bob")] : List String).length = [("Bob")] ∧
    ((["Bob"] : List String) ++
      [(decideRow [] [] false detNone [("Bob")]).1,
       fmt3 (decideRow [] [] false detNone [("Bob")]).2.1,
       (decideRow [] [] false detNone [("Bob")]).2.2]).length =
        ([("Bob")] : List String).length + 3 :=
  claim_C9 [] [] false detNone [[("Bob")]] [("Bob")] (by simp) (by simp) (by decide)

/-- Claim C1 counterexample: the claimed global entry value does not hold.
Aggregating `[("Alex","M"), ("Alex","F"), ("Alex","F")]` gives `"alex"` a
total of 3, below `MIN_COUNT_FOR_CONFIDENCE = 5`, so the low-count penalty
applies and the stored confidence is `(2/3) * 0.7 = 7/15 ≈ 0.467`, which is
neither `0.667` nor the unpenalized `2/3` the claim asserts. -/
theorem claim_C1_counterexample :
    lookupA ("alex") (buildMapping (aggregate c1rows).1) = some (("F"), 7/15, 3) ∧
    (7 : ℚ)/15 ≠ 667/1000 ∧ (7 : ℚ)/15 ≠ 2/3 := by
  refine ⟨?_, by norm_num, by norm_num⟩
  rw [show (aggregate c1rows).1 = [(("alex"), [(("M"), 1), (("F"), 2)])]
    from by decide]
  norm_num [buildMapping, List.filterMap_cons, List.filterMap_nil, mkEntry,
    most_common, insertDesc, totalOf, lookupA, MIN_COUNT_FOR_CONFIDENCE]

/-- Claim C1 (amended): the reference rows
`[("Alex","M"), ("Alex","F"), ("Alex","F")]` produce the global entry
`(F, 7/15, 3)` for `"alex"` (confidence `2/3` penalized by `0.7` because the
total 3 is below 5); the name is flagged by the audit report as
`(alex, F, 2, 1, 3, 2/3)` (total 3 < 50 and gap 1 < 3); and deciding
`("Alex Smith", "US")` with no country data and the fallback classifier
unavailable yields `(F, 7/15, "mapped")`, formatted as `0.467`. -/
theorem claim_C1 :
    lookupA ("alex") (buildMapping (aggregate c1rows).1) = some (("F"), 7/15, 3) ∧
    auditRows (aggregate c1rows).1 = [(("alex"), ("F"), 2, 1, 3, 2/3)] ∧
    decideRow (buildMapping (aggregate c1rows).1)
      (buildMappingCountry (aggregate c1rows).2) false detNone
      [("Alex Smith"), ("US")] = (("F"), 7/15, ("mapped")) ∧
    fmt3 (7/15) = ("0.467") := by
  have hagg : (aggregate c1rows).1 = [(("alex"), [(("M"), 1), (("F"), 2)])] := by
    decide
  have hagg2 : (aggregate c1rows).2 = [] := by decide
  have hmap : buildMapping [(("alex"), [(("M"), 1), (("F"), 2)])] =
      [(("alex"), (("F"), 7/15, 3))] := by
    norm_num [buildMapping, List.filterMap_cons, List.filterMap_nil, mkEntry,
      most_common, insertDesc, totalOf, MIN_COUNT_FOR_CONFIDENCE]
  refine ⟨?_, ?_, ?_, ?_⟩
  · rw [hagg, hmap]
    rfl
  · rw [hagg]
    norm_num [auditRows, auditItem, List.filterMap_cons, List.filterMap_nil,
      most_common, insertDesc, totalOf]
  · rw [hagg, hagg2, hmap]
    have hfn : get_first_name ("Alex Smith") = ("alex") := by decide
    simp +decide only [decideRow, decideMapping, decideGG, decideFinal, lookupA,
      countryKey, CONF_THRESHOLD, buildMappingCountry, hfn, List.map_nil,
      List.flatten_nil]
    norm_num
  · norm_num [fmt3, round_eq]
    decide

/-- Claim C2 counterexample: with the reference rows of `c2rows` the name
`"unai"` has the country-scoped entry `(Unknown, 0.70, 10)` for `US` and the
global entry `(M, 0.90, 70)`; its confidence `0.70` meets the threshold, yet
because the scoped entry's top label is `Unknown`, the later blocks of the
decision loop fire and the record resolves to the higher-confidence global
entry `(M, 0.90, "mapped")`, not to the country-scoped entry. -/
theorem claim_C2_counterexample :
    lookupA (("US"), ("unai")) (buildMappingCountry (aggregate c2rows).2) =
      some (("Unknown"), 7/10, 10) ∧
    lookupA ("unai") (buildMapping (aggregate c2rows).1) =
      some (("M"), 9/10, 70) ∧
    decideRow (buildMapping (aggregate c2rows).1)
      (buildMappingCountry (aggregate c2rows).2) false detNone
      [("Unai"), ("US")] = (("M"), 9/10, ("mapped")) ∧
    ((("M") : String), (9 : ℚ)/10, (("mapped") : String)) ≠
      (("Unknown"), 7/10, ("country-mapped")) := by
  have hagg1 : (aggregate c2rows).1 =
      [(("unai"), [(("Unknown"), 7), (("M"), 63)])] := by decide
  have hagg2 : (aggregate c2rows).2 =
      [(("US"), [(("unai"), [(("Unknown"), 7), (("M"), 3)])])] := by decide
  have hmap : buildMapping [(("unai"), [(("Unknown"), 7), (("M"), 63)])] =
      [(("unai"), (("M"), 9/10, 70))] := by
    norm_num [buildMapping, List.filterMap_cons, List.filterMap_nil, mkEntry,
      most_common, insertDesc, totalOf, MIN_COUNT_FOR_CONFIDENCE]
  have hmapc : buildMappingCountry
      [(("US"), [(("unai"), [(("Unknown"), 7), (("M"), 3)])])] =
      [((("US"), ("unai")), (("Unknown"), 7/10, 10))] := by
    norm_num [buildMappingCountry, buildMapping, List.filterMap_cons,
      List.filterMap_nil, mkEntry, most_common, insertDesc, totalOf,
      MIN_COUNT_FOR_CONFIDENCE]
  refine ⟨?_, ?_, ?_, ?_⟩
  · rw [hagg2, hmapc]
    rfl
  · rw [hagg1, hmap]
    rfl
  · rw [hagg1, hagg2, hmap, hmapc]
    have hfn : get_first_name ("Unai") = ("unai") := by decide
    have hck : countryKey ("US") = ("US") := by decide
    simp +decide only [decideRow, decideMapping, decideGG, decideFinal, lookupA,
      CONF_THRESHOLD, hfn, hck]
    norm_num
  · intro hh
    exact absurd (congrArg Prod.fst hh) (by decide)

/-- Claim C2 (amended): for every record whose token has a country-scoped
entry with confidence 0.70 *whose gender label is not Unknown* and a global
entry with confidence 0.90, the decision loop emits the country-scoped entry
with source `country-mapped`, never the higher-confidence global entry.  (When
the scoped entry's label is `Unknown`, the later blocks of the loop replace it
with the global entry, as the counterexample shows.) -/
theorem claim_C2 (m : List (String × CEntry)) (mc : List ((String × String) × CEntry))
    (gga : Bool) (det : String → String) (row : List String)
    (g g2 : String) (t t2 : ℕ)
    (hf : get_first_name (row.headD ("")) ≠ (""))
    (hg : g ≠ ("Unknown"))
    (hc : lookupA (countryKey (row.getD 1 ("")), get_first_name (row.headD (""))) mc =
      some (g, 7/10, t))
    (hm : lookupA (get_first_name (row.headD (""))) m = some (g2, 9/10, t2)) :
    decideRow m mc gga det row = (g, 7/10, ("country-mapped")) := by
  simp only [decideRow]
  rw [if_pos hf]
  have h1 : decideMapping m mc (countryKey (row.getD 1 ("")))
      (get_first_name (row.headD (""))) = (g, 7/10, ("country-mapped")) := by
    unfold decideMapping
    rw [hc]
    norm_num [CONF_THRESHOLD]
  rw [h1]
  have h2 : decideGG m gga det (get_first_name (row.headD ("")))
      (g, 7/10, ("country-mapped")) = (g, 7/10, ("country-mapped")) := by
    unfold decideGG
    rw [if_neg (fun hh => hg hh.1)]
  rw [h2]
  unfold decideFinal
  rw [if_neg (fun hh => hg hh.1)]

/-- Claim C2 witness: a concrete mapping pair realizing the hypotheses. -/
theorem claim_C2_witness :
    decideRow [(("unai"), (("M"), 9/10, 70))]
      [((("US"), ("unai")), (("F"), 7/10, 10))] false detNone
      [("Unai"), ("US")] = (("F"), 7/10, ("country-mapped")) :=
  claim_C2 [(("unai"), (("M"), 9/10, 70))]
    [((("US"), ("unai")), (("F"), 7/10, 10))] false detNone
    [("Unai"), ("US")] ("F") ("M") 10 70
    (by decide) (by decide)
    (by
      have hfn : get_first_name ("Unai") = ("unai") := by decide
      have hck : countryKey ("US") = ("US") := by decide
      simp [hfn, hck, lookupA])
    (by
      have hfn : get_first_name ("Unai") = ("unai") := by decide
      simp [hfn, lookupA])

/-- Claim C3 counterexample: with the `c3rows` reference data the name
`"mika"` has the low-confidence country-scoped candidate `(F, 0.60, 5)` for
`US` and the low-confidence global entry `(M, 0.55, 20)`, and the fallback
classifier says `andy`, i.e. `(Unknown, 0.5)`.  The claim's arbitration with
the remembered country candidate `(F, 0.60)` would emit `(F, 0.60, "mapped")`
(0.5 < 0.85 and 0.5 < 0.60); the code instead re-reads the candidate from the
*global* mapping (line 215) and emits `(M, 0.55, "mapped")`. -/
theorem claim_C3_counterexample :
    lookupA (("US"), ("mika")) (buildMappingCountry (aggregate c3rows).2) =
      some (("F"), 3/5, 5) ∧
    lookupA ("mika") (buildMapping (aggregate c3rows).1) =
      some (("M"), 11/20, 20) ∧
    gg_guess true detAndy ("mika") = (("Unknown"), 1/2) ∧
    decideRow (buildMapping (aggregate c3rows).1)
      (buildMappingCountry (aggregate c3rows).2) true detAndy
      [("Mika"), ("US")] = (("M"), 11/20, ("mapped")) ∧
    ((("M") : String), (11 : ℚ)/20, (("mapped") : String)) ≠
      (("F"), 3/5, ("mapped")) := by
  have hagg1 : (aggregate c3rows).1 =
      [(("mika"), [(("F"), 9), (("M"), 11)])] := by decide
  have hagg2 : (aggregate c3rows).2 =
      [(("US"), [(("mika"), [(("F"), 3), (("M"), 2)])])] := by decide
  have hmap : buildMapping [(("mika"), [(("F"), 9), (("M"), 11)])] =
      [(("mika"), (("M"), 11/20, 20))] := by
    norm_num [buildMapping, List.filterMap_cons, List.filterMap_nil, mkEntry,
      most_common, insertDesc, totalOf, MIN_COUNT_FOR_CONFIDENCE]
  have hmapc : buildMappingCountry
      [(("US"), [(("mika"), [(("F"), 3), (("M"), 2)])])] =
      [((("US"), ("mika")), (("F"), 3/5, 5))] := by
    norm_num [buildMappingCountry, buildMapping, List.filterMap_cons,
      List.filterMap_nil, mkEntry, most_common, insertDesc, totalOf,
      MIN_COUNT_FOR_CONFIDENCE]
  have hgg : gg_guess true detAndy ("mika") = (("Unknown"), 1/2) := by
    simp +decide [gg_guess, detAndy]
  refine ⟨?_, ?_, hgg, ?_, ?_⟩
  · rw [hagg2, hmapc]
    rfl
  · rw [hagg1, hmap]
    rfl
  · rw [hagg1, hagg2, hmap, hmapc]
    have hfn : get_first_name ("Mika") = ("mika") := by decide
    have hck : countryKey ("US") = ("US") := by decide
    simp +decide only [decideRow, decideMapping, decideGG, decideFinal, lookupA,
      CONF_THRESHOLD, hfn, hck, gg_guess, detAndy]
    norm_num
  · intro hh
    exact absurd (congrArg Prod.fst hh) (by decide)

/-- Claim C3 (amended): when a record reaches the fallback block undecided
(token non-empty, any country-scoped entry below the threshold, global entry
`(g, gc, _)` with `gc` below the threshold) and the classifier is available,
the candidate consulted and emitted is the *global* entry, not the remembered
country-scoped candidate: the classifier's result `(gg_g, gg_conf)` is used
iff `gg_conf ≥ 0.85` or `gg_conf > gc`, except that an adopted `Unknown`
label is then replaced by the global entry via the final safety net; in every
other case the global entry is emitted as `(g, gc, "mapped")`. -/
theorem claim_C3 (m : List (String × CEntry)) (mc : List ((String × String) × CEntry))
    (det : String → String) (row : List String) (g : String) (gc : ℚ) (gt : ℕ)
    (hf : get_first_name (row.headD ("")) ≠ (""))
    (hc : ∀ e, lookupA (countryKey (row.getD 1 ("")),
            get_first_name (row.headD (""))) mc = some e → e.2.1 < CONF_THRESHOLD)
    (hm : lookupA (get_first_name (row.headD (""))) m = some (g, gc, gt))
    (hgc : gc < CONF_THRESHOLD) :
    decideRow m mc true det row =
      if ((17/20 : ℚ) ≤ (gg_guess true det (get_first_name (row.headD ("")))).2 ∨
          gc < (gg_guess true det (get_first_name (row.headD ("")))).2) ∧
         (gg_guess true det (get_first_name (row.headD ("")))).1 ≠ ("Unknown")
      then ((gg_guess true det (get_first_name (row.headD ("")))).1,
            (gg_guess true det (get_first_name (row.headD ("")))).2,
            ("gender-guesser"))
      else (g, gc, ("mapped")) := by
  revert hf hc hm
  simp only [decideRow]
  generalize get_first_name (row.headD ("")) = fn
  generalize countryKey (row.getD 1 ("")) = ck
  intro hf hc hm
  rw [if_pos hf]
  have h1 : decideMapping m mc ck fn = (("Unknown"), 0, ("unknown")) := by
    unfold decideMapping
    rcases hcl : lookupA (ck, fn) mc with _ | e
    · simp [hm, not_le.mpr hgc]
    · simp [not_le.mpr (hc e hcl)]
  rw [h1]
  by_cases hcase : (17/20 : ℚ) ≤ (gg_guess true det fn).2 ∨ gc < (gg_guess true det fn).2
  · have h2 : decideGG m true det fn (("Unknown"), 0, ("unknown")) =
        ((gg_guess true det fn).1, (gg_guess true det fn).2, ("gender-guesser")) := by
      simp [decideGG, hf, hm, decide_eq_true hgc, hcase]
    rw [h2]
    by_cases hgu : (gg_guess true det fn).1 = ("Unknown")
    · have h3 : decideFinal m fn
          ((gg_guess true det fn).1, (gg_guess true det fn).2, ("gender-guesser")) =
          (g, gc, ("mapped")) := by
        simp [decideFinal, hgu, hf, hm]
      rw [h3, if_neg (show ¬ (((17/20 : ℚ) ≤ (gg_guess true det fn).2 ∨
        gc < (gg_guess true det fn).2) ∧ (gg_guess true det fn).1 ≠ ("Unknown"))
        from fun hh => hh.2 hgu)]
    · have h3 : decideFinal m fn
          ((gg_guess true det fn).1, (gg_guess true det fn).2, ("gender-guesser")) =
          ((gg_guess true det fn).1, (gg_guess true det fn).2, ("gender-guesser")) := by
        simp [decideFinal, hgu]
      rw [h3, if_pos (And.intro hcase hgu)]
  · have h2 : decideGG m true det fn (("Unknown"), 0, ("unknown")) =
        (if (gg_guess true det fn).2 < gc then (g, gc, ("mapped"))
         else (("Unknown"), 0, ("unknown"))) := by
      simp [decideGG, hf, hm, decide_eq_true hgc, hcase]
    rw [h2, if_neg (show ¬ (((17/20 : ℚ) ≤ (gg_guess true det fn).2 ∨
      gc < (gg_guess true det fn).2) ∧ (gg_guess true det fn).1 ≠ ("Unknown"))
      from fun hh => hcase hh.1)]
    by_cases hlt : (gg_guess true det fn).2 < gc
    · rw [if_pos hlt]
      by_cases hgU : g = ("Unknown")
      · simp [decideFinal, hgU, hf, hm]
      · simp [decideFinal, hgU]
    · rw [if_neg hlt]
      simp [decideFinal, hf, hm]

/-- Claim C3 witness: the concrete mappings of the counterexample scenario,
fed through the amended rule. -/
theorem claim_C3_witness :
    decideRow [(("mika"), (("M"), 11/20, 20))]
      [((("US"), ("mika")), (("F"), 3/5, 5))] true detAndy
      [("Mika"), ("US")] = (("M"), 11/20, ("mapped")) := by
  have hfn : get_first_name ("Mika") = ("mika") := by decide
  have hck : countryKey ("US") = ("US") := by decide
  have h := claim_C3 [(("mika"), (("M"), 11/20, 20))]
    [((("US"), ("mika")), (("F"), 3/5, 5))] detAndy
    [("Mika"), ("US")] ("M") (11/20) 20
    (by decide)
    (by
      intro e he
      simp [hfn, hck, lookupA] at he
      rw [← he]
      norm_num [CONF_THRESHOLD])
    (by simp [hfn, lookupA])
    (by norm_num [CONF_THRESHOLD])
  have hgg : gg_guess true detAndy (get_first_name (([("Mika"), ("US")] :
      List String).headD (""))) = (("Unknown"), 1/2) := by
    simp +decide [gg_guess, detAndy, hfn]
  rw [hgg] at h
  norm_num at h
  exact h
